import Mathlib

/-!
# cli-notes: a directory-scoped note store

Shallow embedding of `src/main.go`.  The program keeps one SQLite table

    notes(id INTEGER PRIMARY KEY AUTOINCREMENT, dir TEXT NOT NULL, note TEXT NOT NULL)

and issues four statements against it (create-table, insert, delete by id and
dir, select by dir).  The table is embedded as a list of rows together with the
AUTOINCREMENT counter; each Go function becomes a function that takes the store
and returns the new store together with the Go return value.

Two things the Go code gets from outside are explicit arguments here:

* `fault : Option String` is what the database driver reports for one statement:
  `none` when the statement runs, `some msg` when it fails with message `msg`.
* `coerce : String → Option Int` is the engine's reading of a TEXT parameter that
  is compared with the INTEGER column `id` (`delete_note` binds the id as a Go
  string): `some i` when the text denotes the integer `i`, `none` otherwise.
  `decimalValue` below is the reading of plain decimal numerals.
-/

namespace CliNotes

/-! ## The store -/

/-- One row of table `notes`. -/
structure Row where
  id : Int
  dir : String
  note : String
deriving DecidableEq, Repr

/-- Table `notes`: its rows in storage order and its `sqlite_sequence` entry, the
largest id AUTOINCREMENT has handed out so far. -/
structure Table where
  rows : List Row
  seq : Int
deriving DecidableEq, Repr

/-- The database file: `none` while table `notes` does not exist yet. -/
abbrev Store := Option Table

/-- Go `error` values met by the program: failures reported by the driver, and the
sentinel `ErrNoRowsDeleted` (line 42). -/
inductive Err where
  | driver (msg : String)
  | noRowsDeleted
deriving DecidableEq, Repr

deriving instance DecidableEq for Except

/-- The sentinel `var ErrNoRowsDeleted = errors.New("no rows was deleted")`. -/
def ErrNoRowsDeleted : Err := Err.noRowsDeleted

/-- The `Error()` text of an error, as `%v` prints it. -/
def Err.Error : Err → String
  | Err.driver msg => msg
  | Err.noRowsDeleted => "no rows was deleted"

/-- The test `errors.Is(err, target)` for the errors above: driver errors never wrap the
sentinel, so it is identity; a nil `err` is nothing. -/
def errorsIs (err : Option Err) (target : Err) : Bool :=
  match err with
  | none => false
  | some e => decide (e = target)

/-- The rows of a store; a database without the table holds none. -/
def storeRows (db : Store) : List Row :=
  match db with
  | none => []
  | some t => t.rows

/-- Largest rowid of 64-bit SQLite. -/
def MAX_ROWID : Int := 9223372036854775807

/-- Largest id among the rows, `none` for an empty table. -/
def maxRowid : List Row → Option Int
  | [] => none
  | r :: rest =>
    match maxRowid rest with
    | none => some r.id
    | some m => some (max r.id m)

/-- Rowid selection of an AUTOINCREMENT table: one more than the largest rowid in
the table (1 when empty), raised to one more than the recorded sequence value;
the insert fails as "full" once the largest rowid has been reached. -/
def newRowid (t : Table) : Option Int :=
  match maxRowid t.rows with
  | none =>
    if t.seq = MAX_ROWID then none else some (max 1 (t.seq + 1))
  | some m =>
    if m ≥ MAX_ROWID ∨ t.seq = MAX_ROWID then none else some (max (m + 1) (t.seq + 1))

/-- What `db.Exec` hands back on success. -/
structure Result where
  lastInsertId : Int
  rowsAffected : Nat
deriving DecidableEq, Repr

/-- Driver `RowsAffected()`; the SQLite driver always has the count. -/
def Result.RowsAffected (r : Result) : Except Err Nat := Except.ok r.rowsAffected

/-- The statement `CREATE TABLE IF NOT EXISTS notes (...)`: a missing table is
created empty, an existing one is left as it is. -/
def execCreateTable (fault : Option String) (db : Store) : Store × Except Err Result :=
  match fault with
  | some msg => (db, Except.error (Err.driver msg))
  | none =>
    match db with
    | none => (some ⟨[], 0⟩, Except.ok ⟨0, 0⟩)
    | some t => (some t, Except.ok ⟨0, 0⟩)

/-- The statement `INSERT INTO notes (dir, note) VALUES (?, ?)`: one row is appended
under the id AUTOINCREMENT selects, which becomes the sequence value. -/
def execInsert (fault : Option String) (db : Store) (dir note : String) :
    Store × Except Err Result :=
  match fault with
  | some msg => (db, Except.error (Err.driver msg))
  | none =>
    match db with
    | none => (db, Except.error (Err.driver "no such table: notes"))
    | some t =>
      match newRowid t with
      | none => (db, Except.error (Err.driver "database or disk is full"))
      | some n => (some ⟨t.rows ++ [⟨n, dir, note⟩], n⟩, Except.ok ⟨n, 1⟩)

/-- The WHERE clause `id = ? AND dir = ?` with the id bound as text. -/
def deleteMatches (coerce : String → Option Int) (id dir : String) (r : Row) : Bool :=
  decide (coerce id = some r.id) && decide (r.dir = dir)

/-- The statement `DELETE FROM notes WHERE id = ? AND dir = ?`: the matching rows go,
and their number is the count of affected rows. -/
def execDelete (coerce : String → Option Int) (fault : Option String) (db : Store)
    (id dir : String) : Store × Except Err Result :=
  match fault with
  | some msg => (db, Except.error (Err.driver msg))
  | none =>
    match db with
    | none => (db, Except.error (Err.driver "no such table: notes"))
    | some t =>
      (some ⟨t.rows.filter (fun r => !deleteMatches coerce id dir r), t.seq⟩,
        Except.ok ⟨0, (t.rows.filter (deleteMatches coerce id dir)).length⟩)

/-- The query `SELECT id, note FROM notes WHERE dir = ?`: the result rows, in storage
order. -/
def dbQuery (fault : Option String) (db : Store) (dir : String) :
    Except Err (List (Int × String)) :=
  match fault with
  | some msg => Except.error (Err.driver msg)
  | none =>
    match db with
    | none => Except.error (Err.driver "no such table: notes")
    | some t => Except.ok ((t.rows.filter (fun r => decide (r.dir = dir))).map
        (fun r => (r.id, r.note)))

/-! ## Go maps `map[int]string` -/

/-- A Go `map[int]string` as an association list with distinct keys. -/
abbrev NoteMap := List (Int × String)

/-- The assignment `m[k] = v`: overwrite the entry of `k`, or add one. -/
def mapSet : NoteMap → Int → String → NoteMap
  | [], k, v => [(k, v)]
  | (k', v') :: rest, k, v =>
    if k' = k then (k, v) :: rest else (k', v') :: mapSet rest k v

/-- The map without key `k`. -/
def mapErase (m : NoteMap) (k : Int) : NoteMap :=
  m.filter (fun e => !decide (e.1 = k))

/-- The lookup `m[k]`. -/
def mapGet (m : NoteMap) (k : Int) : Option String :=
  match m.find? (fun e => decide (e.1 = k)) with
  | none => none
  | some e => some e.2

/-! ## The functions of `main.go` -/

/-- Function `create_notes_table`, lines 15-27. -/
def create_notes_table (fault : Option String) (db : Store) : Store × Option Err :=
  match execCreateTable fault db with
  | (db', Except.error err) => (db', some err)
  | (db', Except.ok _) => (db', none)

/-- Function `add_note`, lines 33-40. -/
def add_note (fault : Option String) (db : Store) (dir note : String) : Store × Option Err :=
  match execInsert fault db dir note with
  | (db', Except.error err) => (db', some err)
  | (db', Except.ok _) => (db', none)

/-- Function `delete_note`, lines 44-58. -/
def delete_note (coerce : String → Option Int) (fault : Option String) (db : Store)
    (dir id : String) : Store × Option Err :=
  match execDelete coerce fault db id dir with
  | (db', Except.error err) => (db', some err)
  | (db', Except.ok result) =>
    match result.RowsAffected with
    | Except.error err => (db', some err)
    | Except.ok rows => if rows = 0 then (db', some ErrNoRowsDeleted) else (db', none)

/-- Function `get_dir_notes`, lines 60-79: the result rows are scanned into a map. -/
def get_dir_notes (fault : Option String) (db : Store) (dir : String) : Except Err NoteMap :=
  match dbQuery fault db dir with
  | Except.error err => Except.error err
  | Except.ok rows => Except.ok (rows.foldl (fun notes r => mapSet notes r.1 r.2) [])

/-- What a run writes: the chunks sent to standard output, one per print call, and
the message of `log.Fatalf` when the run ended there. -/
structure Console where
  stdout : List String
  fatal : Option String
deriving DecidableEq, Repr

/-- The text `fmt.Println(s)` writes. -/
def Println (s : String) : String := s ++ "\n"

/-- The verb `%d` on a Go `int`. -/
def fmtInt (i : Int) : String := toString i

/-- The line `fmt.Printf("%d: %s\n", id, note)` writes. -/
def noteLine (id : Int) (note : String) : String := fmtInt id ++ ": " ++ note ++ "\n"

/-- Function `list_notes`, lines 81-94.  Go ranges over the map in an unspecified
order; here the lines come in the order of the association list. -/
def list_notes (fault : Option String) (db : Store) (dir : String) : Console :=
  match get_dir_notes fault db dir with
  | Except.error err => ⟨[], some ("Failed to query data: " ++ err.Error)⟩
  | Except.ok notes =>
    if notes.length = 0 then ⟨[Println "No notes in this directory"], none⟩
    else ⟨notes.map (fun e => noteLine e.1 e.2), none⟩

/-- What the process finds around it. -/
structure Env where
  home : Except String String
  openErr : Option String
  createFault : Option String
  cwd : Except String String
  stmtFault : Option String

/-- Calls that reach the database, in the order made. -/
inductive StorageOp where
  | sqlOpen
  | createTable
  | insert
  | delete
  | select
deriving DecidableEq, Repr

/-- The observable result of one run of the program. -/
structure Outcome where
  stdout : List String
  diag : Option String
  exit : Nat
  db : Store
  trace : List StorageOp
deriving DecidableEq, Repr

/-- The call `log.Fatalf`: the message goes to standard error and the process exits with 1. -/
def fatalf (db : Store) (trace : List StorageOp) (msg : String) : Outcome :=
  ⟨[], some msg, 1, db, trace⟩

/-- Function `main`, lines 96-154, with `os.Args[1:]` as `args` and the database file as `db`. -/
def main (coerce : String → Option Int) (env : Env) (args : List String) (db : Store) :
    Outcome :=
  match env.home with
  | Except.error e => fatalf db [] ("Failed to get home directory: " ++ e)
  | Except.ok _ =>
    match env.openErr with
    | some e => fatalf db [StorageOp.sqlOpen] ("Failed to connect to SQLite: " ++ e)
    | none =>
      match create_notes_table env.createFault db with
      | (db1, some err) =>
        fatalf db1 [StorageOp.sqlOpen, StorageOp.createTable]
          ("Failed to create table: " ++ err.Error)
      | (db1, none) =>
        match env.cwd with
        | Except.error e =>
          fatalf db1 [StorageOp.sqlOpen, StorageOp.createTable]
            ("Failed to get current directory: " ++ e)
        | Except.ok dir =>
          match args with
          | [] =>
            let c := list_notes env.stmtFault db1 dir
            ⟨c.stdout, c.fatal, if c.fatal.isSome then 1 else 0, db1,
              [StorageOp.sqlOpen, StorageOp.createTable, StorageOp.select]⟩
          | cmd :: rest =>
            if cmd = "add" then
              if rest.length < 1 then
                fatalf db1 [StorageOp.sqlOpen, StorageOp.createTable] "Missing note"
              else
                let note := String.intercalate " " rest
                match add_note env.stmtFault db1 dir note with
                | (db2, some err) =>
                  fatalf db2 [StorageOp.sqlOpen, StorageOp.createTable, StorageOp.insert]
                    ("Failed to add note: " ++ err.Error)
                | (db2, none) =>
                  ⟨[Println "Note added"], none, 0, db2,
                    [StorageOp.sqlOpen, StorageOp.createTable, StorageOp.insert]⟩
            else if cmd = "delete" then
              match rest with
              | [] => fatalf db1 [StorageOp.sqlOpen, StorageOp.createTable] "Missing note id"
              | id :: _ =>
                match delete_note coerce env.stmtFault db1 dir id with
                | (db2, err) =>
                  if errorsIs err ErrNoRowsDeleted then
                    ⟨["No note with id " ++ id ++ "\n"], none, 0, db2,
                      [StorageOp.sqlOpen, StorageOp.createTable, StorageOp.delete]⟩
                  else
                    match err with
                    | some e =>
                      fatalf db2 [StorageOp.sqlOpen, StorageOp.createTable, StorageOp.delete]
                        ("Failed to delete note: " ++ e.Error)
                    | none =>
                      ⟨[Println "Note deleted"], none, 0, db2,
                        [StorageOp.sqlOpen, StorageOp.createTable, StorageOp.delete]⟩
            else
              ⟨[], none, 0, db1, [StorageOp.sqlOpen, StorageOp.createTable]⟩

/-! ## Decimal numerals -/

/-- Value of a decimal digit character. -/
def digitValue (c : Char) : Option Nat :=
  if c.toNat ≥ 48 ∧ c.toNat ≤ 57 then some (c.toNat - 48) else none

/-- Value of a run of decimal digits, most significant first, continuing from the
value `acc` of the digits already read; `none` when a character is not a digit. -/
def digitsValue : List Char → Nat → Option Nat
  | [], acc => some acc
  | c :: rest, acc =>
    match digitValue c with
    | none => none
    | some d => digitsValue rest (acc * 10 + d)

/-- The integer a plain decimal numeral denotes: an optional minus sign followed
by at least one digit. -/
def decimalValue (s : String) : Option Int :=
  match s.data with
  | [] => none
  | c :: rest =>
    if c = '-' then
      match rest with
      | [] => none
      | _ => (digitsValue rest 0).map (fun n => -(n : Int))
    else (digitsValue (c :: rest) 0).map (fun n => (n : Int))

/-- A working environment: home and working directory resolve, the database
opens, and no statement fails. -/
def workingEnv (home dir : String) : Env :=
  ⟨Except.ok home, none, none, Except.ok dir, none⟩

/-- The store after `create_notes_table` has run on a fresh database file. -/
def emptyStore : Store := some ⟨[], 0⟩

/-- Successive runs of the program on the same database file, each with its own
environment and argument list; the result is the file after the last run. -/
def runAll (coerce : String → Option Int) : List (Env × List String) → Store → Store
  | [], db => db
  | (env, args) :: rest, db => runAll coerce rest (main coerce env args db).db

/-- A call of one of the two store operations that write. -/
inductive Call where
  | add (fault : Option String) (dir note : String)
  | delete (fault : Option String) (dir id : String)

/-- The ids stored after a call that were not stored before it. -/
def newIds (before after : Store) : List Int :=
  ((storeRows after).filter
    (fun r => !(storeRows before).any (fun q => decide (q.id = r.id)))).map Row.id

/-- A store together with the ids assigned so far, oldest first. -/
structure History where
  db : Store
  assigned : List Int

/-- One call on a history; an add records the id its note received. -/
def step (coerce : String → Option Int) (h : History) : Call → History
  | Call.add fault dir note =>
    ⟨(add_note fault h.db dir note).1,
      h.assigned ++ newIds h.db (add_note fault h.db dir note).1⟩
  | Call.delete fault dir id => ⟨(delete_note coerce fault h.db dir id).1, h.assigned⟩

/-- A sequence of calls from the empty store. -/
def runCalls (coerce : String → Option Int) (calls : List Call) : History :=
  calls.foldl (step coerce) ⟨emptyStore, []⟩

/-- The insert statement still has an id to assign (the table is not full). -/
def hasRoom (db : Store) : Bool :=
  match db with
  | none => true
  | some t => (newRowid t).isSome

/-! ## Lemmas on the store primitives -/

theorem maxRowid_ge (rows : List Row) (r : Row) (hr : r ∈ rows) :
    ∃ m, maxRowid rows = some m ∧ r.id ≤ m := by
  induction rows with
  | nil => simp at hr
  | cons a rest ih =>
    rcases List.mem_cons.mp hr with h | h
    · subst h
      cases hm : maxRowid rest with
      | none => exact ⟨r.id, by simp [maxRowid, hm], le_refl _⟩
      | some m => exact ⟨max r.id m, by simp [maxRowid, hm], le_max_left _ _⟩
    · obtain ⟨m, hm, hle⟩ := ih h
      exact ⟨max a.id m, by simp [maxRowid, hm], le_trans hle (le_max_right _ _)⟩

theorem newRowid_gt (t : Table) (n : Int) (h : newRowid t = some n) :
    t.seq < n ∧ ∀ r ∈ t.rows, r.id < n := by
  unfold newRowid at h
  cases hm : maxRowid t.rows with
  | none =>
    rw [hm] at h
    simp only at h
    split at h
    · simp at h
    · simp only [Option.some.injEq] at h
      refine ⟨by omega, ?_⟩
      intro r hr
      obtain ⟨m, hm2, _⟩ := maxRowid_ge t.rows r hr
      rw [hm] at hm2
      simp at hm2
  | some m =>
    rw [hm] at h
    simp only at h
    split at h
    · simp at h
    · simp only [Option.some.injEq] at h
      refine ⟨by omega, ?_⟩
      intro r hr
      obtain ⟨m2, hm2, hle⟩ := maxRowid_ge t.rows r hr
      rw [hm] at hm2
      simp only [Option.some.injEq] at hm2
      omega

theorem add_note_success {fault : Option String} {db db' : Store} {dir note : String}
    (h : add_note fault db dir note = (db', none)) :
    ∃ t n, fault = none ∧ db = some t ∧ newRowid t = some n ∧
      db' = some ⟨t.rows ++ [⟨n, dir, note⟩], n⟩ := by
  cases fault with
  | some msg => simp [add_note, execInsert] at h
  | none =>
    cases db with
    | none => simp [add_note, execInsert] at h
    | some t =>
      cases hn : newRowid t with
      | none => simp [add_note, execInsert, hn] at h
      | some n =>
        simp [add_note, execInsert, hn] at h
        exact ⟨t, n, rfl, rfl, hn, h.symm⟩

/-! ## Lemmas on maps -/

theorem mapSet_fresh (m : NoteMap) (k : Int) (v : String) (h : ∀ e ∈ m, e.1 ≠ k) :
    mapSet m k v = m ++ [(k, v)] := by
  induction m with
  | nil => rfl
  | cons a rest ih =>
    obtain ⟨k', v'⟩ := a
    have hk : k' ≠ k := h (k', v') (List.mem_cons_self _ _)
    have hrest : ∀ e ∈ rest, e.1 ≠ k := fun e he => h e (List.mem_cons_of_mem _ he)
    simp [mapSet, hk, ih hrest]

theorem mapSet_keys (m : NoteMap) (k : Int) (v : String) (e : Int × String)
    (he : e ∈ mapSet m k v) : e.1 = k ∨ e ∈ m := by
  induction m with
  | nil =>
    simp [mapSet] at he
    left; rw [he]
  | cons a rest ih =>
    obtain ⟨k', v'⟩ := a
    unfold mapSet at he
    split at he
    · rcases List.mem_cons.mp he with h | h
      · left; rw [h]
      · right; exact List.mem_cons_of_mem _ h
    · rcases List.mem_cons.mp he with h | h
      · right; rw [h]; exact List.mem_cons_self _ _
      · rcases ih h with h2 | h2
        · left; exact h2
        · right; exact List.mem_cons_of_mem _ h2

/-- Keys of the map built from result rows are ids of those rows. -/
theorem foldl_mapSet_keys (rows : List (Int × String)) (acc : NoteMap) (e : Int × String)
    (he : e ∈ rows.foldl (fun notes r => mapSet notes r.1 r.2) acc) :
    e ∈ acc ∨ ∃ r ∈ rows, r.1 = e.1 := by
  induction rows generalizing acc with
  | nil => left; simpa using he
  | cons a rest ih =>
    simp only [List.foldl_cons] at he
    rcases ih _ he with h | ⟨r, hr, hre⟩
    · rcases mapSet_keys acc a.1 a.2 e h with h2 | h2
      · right; exact ⟨a, List.mem_cons_self _ _, h2.symm⟩
      · left; exact h2
    · right; exact ⟨r, List.mem_cons_of_mem _ hr, hre⟩

theorem foldl_mapSet_append (rows : List (Int × String)) (acc : NoteMap) (k : Int) (v : String) :
    (rows ++ [(k, v)]).foldl (fun notes r => mapSet notes r.1 r.2) acc =
      mapSet (rows.foldl (fun notes r => mapSet notes r.1 r.2) acc) k v := by
  simp [List.foldl_append]

/-- With distinct ids, the map holds the result rows one for one. -/
theorem foldl_mapSet_nodup (rows : List (Int × String)) (acc : NoteMap)
    (hnd : (rows.map Prod.fst).Nodup) (hacc : ∀ e ∈ acc, ∀ r ∈ rows, e.1 ≠ r.1) :
    rows.foldl (fun notes r => mapSet notes r.1 r.2) acc = acc ++ rows := by
  induction rows generalizing acc with
  | nil => simp
  | cons a rest ih =>
    simp only [List.map_cons, List.nodup_cons] at hnd
    simp only [List.foldl_cons]
    have hfresh : mapSet acc a.1 a.2 = acc ++ [(a.1, a.2)] :=
      mapSet_fresh acc a.1 a.2 (fun e he => hacc e he a (List.mem_cons_self _ _))
    rw [hfresh, ih _ hnd.2]
    · simp
    · intro e he r hr
      rcases List.mem_append.mp he with h | h
      · exact hacc e h r (List.mem_cons_of_mem _ hr)
      · simp only [List.mem_singleton] at h
        rw [h]
        intro heq
        exact hnd.1 (List.mem_map.mpr ⟨r, hr, heq.symm⟩)

theorem mapErase_mapSet (m : NoteMap) (k i : Int) (v : String) :
    mapErase (mapSet m k v) i =
      if k = i then mapErase m i else mapSet (mapErase m i) k v := by
  induction m with
  | nil =>
    by_cases hk : k = i <;> simp [mapSet, mapErase, hk]
  | cons a rest ih =>
    obtain ⟨k', v'⟩ := a
    unfold mapErase at ih ⊢
    by_cases hk : k = i
    · simp only [hk, if_true] at ih ⊢
      by_cases hk' : k' = i
      · simp [mapSet, hk']
      · simp [mapSet, hk', ih]
    · simp only [hk, if_false] at ih ⊢
      by_cases hk' : k' = k
      · subst hk'
        simp [mapSet, hk]
      · by_cases hki : k' = i
        · subst hki
          simp [mapSet, hk', ih]
        · simp [mapSet, hk', hki, ih]

theorem foldl_mapSet_erase (rows : List (Int × String)) (acc : NoteMap) (i : Int) :
    (rows.filter (fun r => !decide (r.1 = i))).foldl (fun notes r => mapSet notes r.1 r.2)
        (mapErase acc i) =
      mapErase (rows.foldl (fun notes r => mapSet notes r.1 r.2) acc) i := by
  induction rows generalizing acc with
  | nil => simp
  | cons a rest ih =>
    by_cases ha : a.1 = i
    · have h := mapErase_mapSet acc a.1 i a.2
      simp only [ha, if_true] at h
      simp only [List.filter_cons, ha, decide_True, Bool.not_true, List.foldl_cons]
      rw [← ih, h]
      simp
    · have h := mapErase_mapSet acc a.1 i a.2
      simp only [ha, if_false] at h
      simp only [List.filter_cons, ha, decide_False, Bool.not_false, List.foldl_cons, if_true]
      rw [← h]
      exact ih _

theorem mapGet_fresh (m : NoteMap) (k : Int) (h : ∀ e ∈ m, e.1 ≠ k) : mapGet m k = none := by
  have hf : m.find? (fun e => decide (e.1 = k)) = none := by
    rw [List.find?_eq_none]
    intro e he
    simpa using h e he
  simp [mapGet, hf]

/-! ## Lemmas on decimal numerals -/

theorem digitValue_digitChar (n : Nat) (h : n < 10) : digitValue (Nat.digitChar n) = some n := by
  interval_cases n <;> decide

theorem digitsValue_toDigitsCore (fuel : Nat) : ∀ (n : Nat) (ds : List Char), n < fuel →
    ∃ k, ∀ acc, digitsValue (Nat.toDigitsCore 10 fuel n ds) acc =
      digitsValue ds (acc * 10 ^ k + n) := by
  induction fuel with
  | zero => intro n ds h; omega
  | succ fuel ih =>
    intro n ds h
    have hd := digitValue_digitChar (n % 10) (Nat.mod_lt _ (by decide))
    by_cases h0 : n / 10 = 0
    · refine ⟨1, fun acc => ?_⟩
      simp only [Nat.toDigitsCore, h0, if_true, digitsValue, hd]
      have : n % 10 = n := Nat.mod_eq_of_lt (by omega)
      rw [this, pow_one]
    · have hlt : n / 10 < fuel := by omega
      obtain ⟨k, hk⟩ := ih (n / 10) (Nat.digitChar (n % 10) :: ds) hlt
      refine ⟨k + 1, fun acc => ?_⟩
      simp only [Nat.toDigitsCore, h0, if_false]
      rw [hk acc]
      simp only [digitsValue, hd]
      congr 1
      have := Nat.div_add_mod n 10
      rw [pow_succ]
      nlinarith

theorem digitsValue_repr (n : Nat) : digitsValue (Nat.repr n).data 0 = some n := by
  obtain ⟨k, hk⟩ := digitsValue_toDigitsCore (n + 1) n [] (by omega)
  have := hk 0
  simpa [Nat.repr, Nat.toDigits, List.asString, digitsValue] using this

/-- The reading of decimal numerals gives back every integer from its `%d` text. -/
theorem decimalValue_fmtInt (i : Int) : decimalValue (fmtInt i) = some i := by
  cases i with
  | ofNat n =>
    have h := digitsValue_repr n
    have hs : fmtInt (Int.ofNat n) = Nat.repr n := rfl
    rw [hs]
    unfold decimalValue
    cases hdata : (Nat.repr n).data with
    | nil =>
      rw [hdata] at h
      simp only [digitsValue, Option.some.injEq] at h
      subst h
      exact absurd hdata (by decide)
    | cons c rest =>
      rw [hdata] at h
      simp only
      by_cases hc : c = '-'
      · subst hc
        simp [digitsValue, digitValue] at h
      · simp [hc, h]
  | negSucc m =>
    have h := digitsValue_repr (m + 1)
    have hs : (fmtInt (Int.negSucc m)).data = '-' :: (Nat.repr (m + 1)).data := rfl
    unfold decimalValue
    rw [hs]
    simp only [if_true]
    cases hdata : (Nat.repr (m + 1)).data with
    | nil =>
      rw [hdata] at h
      simp [digitsValue] at h
    | cons c rest =>
      rw [hdata] at h
      simp only [h, Option.map_some']
      rfl

/-! ## The claims -/

/-- C1: when `add_note d1 t` succeeds and `d2` differs from `d1` as a raw string,
`get_dir_notes d2` returns the same mapping as before the add (whatever the
driver reports for the query), and so does the listing of `d2`. -/
theorem add_note_other_dir_unchanged (fault fault2 : Option String) (db db' : Store)
    (d1 d2 t : String) (hne : d1 ≠ d2) (hadd : add_note fault db d1 t = (db', none)) :
    get_dir_notes fault2 db' d2 = get_dir_notes fault2 db d2 ∧
      list_notes fault2 db' d2 = list_notes fault2 db d2 := by
  obtain ⟨tb, n, _, hdb, _, hdb'⟩ := add_note_success hadd
  subst hdb hdb'
  have hq : dbQuery fault2 (some ⟨tb.rows ++ [⟨n, d1, t⟩], n⟩) d2 = dbQuery fault2 (some tb) d2 := by
    cases fault2 <;> simp [dbQuery, List.filter_append, hne]
  simp [get_dir_notes, list_notes, hq]

/-- C1 at directories that differ only by a trailing slash. -/
theorem add_note_other_dir_unchanged_witness :
    "/a" ≠ "/a/" ∧
      add_note none emptyStore "/a" "x" = (some ⟨[⟨1, "/a", "x"⟩], 1⟩, none) ∧
      (get_dir_notes none (some ⟨[⟨1, "/a", "x"⟩], 1⟩) "/a/" = get_dir_notes none emptyStore "/a/" ∧
        list_notes none (some ⟨[⟨1, "/a", "x"⟩], 1⟩) "/a/" = list_notes none emptyStore "/a/") :=
  ⟨by decide, by decide,
    add_note_other_dir_unchanged none none emptyStore (some ⟨[⟨1, "/a", "x"⟩], 1⟩) "/a" "/a/" "x"
      (by decide) (by decide)⟩

/-- C2 as stated fails: when directory `/a` already lists a note with text `x`,
adding `x` again succeeds and the listing then has two entries whose value is `x`. -/
theorem add_note_roundtrip_counterexample :
    add_note none (some ⟨[⟨1, "/a", "x"⟩], 1⟩) "/a" "x" =
        (some ⟨[⟨1, "/a", "x"⟩, ⟨2, "/a", "x"⟩], 2⟩, none) ∧
      get_dir_notes none (some ⟨[⟨1, "/a", "x"⟩, ⟨2, "/a", "x"⟩], 2⟩) "/a" =
        Except.ok [(1, "x"), (2, "x")] ∧
      (([(1, "x"), (2, "x")] : NoteMap).filter (fun e => decide (e.2 = "x"))).length = 2 := by
  decide

/-- The listing of `d` after a row for `d` was inserted under the id `newRowid` chose:
the old mapping with one entry appended, under a key it did not have. -/
theorem get_dir_notes_insert (t : Table) (n seq : Int) (d text : String)
    (hn : newRowid t = some n) :
    ∃ m, get_dir_notes none (some t) d = Except.ok m ∧ (∀ e ∈ m, e.1 ≠ n) ∧
      get_dir_notes none (some ⟨t.rows ++ [⟨n, d, text⟩], seq⟩) d = Except.ok (m ++ [(n, text)]) := by
  have hfresh : ∀ e ∈ (((t.rows.filter (fun r => decide (r.dir = d))).map
      (fun r => (r.id, r.note))).foldl (fun notes r => mapSet notes r.1 r.2) []), e.1 ≠ n := by
    intro e he
    rcases foldl_mapSet_keys _ _ e he with h | ⟨r, hr, hre⟩
    · simp at h
    · obtain ⟨row, hrow, hrr⟩ := List.mem_map.mp hr
      have hlt := (newRowid_gt t n hn).2 row (List.mem_filter.mp hrow).1
      rw [← hre, ← hrr]
      exact ne_of_lt hlt
  refine ⟨_, rfl, hfresh, ?_⟩
  simp only [get_dir_notes, dbQuery, List.filter_append, List.map_append]
  simp only [List.filter_cons, decide_True, if_true, List.filter_nil, List.map_cons,
    List.map_nil]
  rw [foldl_mapSet_append, mapSet_fresh _ n text hfresh]

/-- C2 (amended): when `add_note d t` succeeds, `get_dir_notes d` returns the mapping
it returned before extended by exactly one entry, under an id that was not a key
before, whose value is `t`; the number of entries with value `t` is one more than
before. -/
theorem add_note_roundtrip (fault : Option String) (db db' : Store) (d t : String)
    (hadd : add_note fault db d t = (db', none)) :
    ∃ n m, get_dir_notes none db d = Except.ok m ∧ mapGet m n = none ∧
      get_dir_notes none db' d = Except.ok (m ++ [(n, t)]) ∧
      ((m ++ [(n, t)]).filter (fun e => decide (e.2 = t))).length =
        (m.filter (fun e => decide (e.2 = t))).length + 1 := by
  obtain ⟨tb, n, _, hdb, hn, hdb'⟩ := add_note_success hadd
  subst hdb hdb'
  obtain ⟨m, hm, hfresh, hm'⟩ := get_dir_notes_insert tb n n d t hn
  exact ⟨n, m, hm, mapGet_fresh m n hfresh, hm', by simp [List.filter_append]⟩

/-- C2 (amended) on the first note of a directory. -/
theorem add_note_roundtrip_witness :
    add_note none emptyStore "/a" "x" = (some ⟨[⟨1, "/a", "x"⟩], 1⟩, none) ∧
      ∃ n m, get_dir_notes none emptyStore "/a" = Except.ok m ∧ mapGet m n = none ∧
        get_dir_notes none (some ⟨[⟨1, "/a", "x"⟩], 1⟩) "/a" = Except.ok (m ++ [(n, "x")]) ∧
        ((m ++ [(n, "x")]).filter (fun e => decide (e.2 = "x"))).length =
          (m.filter (fun e => decide (e.2 = "x"))).length + 1 :=
  ⟨by decide,
    add_note_roundtrip none emptyStore (some ⟨[⟨1, "/a", "x"⟩], 1⟩) "/a" "x" (by decide)⟩

/-- What `delete_note` does on an existing table when the statement runs. -/
theorem delete_note_run (coerce : String → Option Int) (t : Table) (d id : String) :
    delete_note coerce none (some t) d id =
      if (t.rows.filter (deleteMatches coerce id d)).length = 0
      then (some ⟨t.rows.filter (fun r => !deleteMatches coerce id d r), t.seq⟩,
        some ErrNoRowsDeleted)
      else (some ⟨t.rows.filter (fun r => !deleteMatches coerce id d r), t.seq⟩, none) := by
  simp [delete_note, execDelete, Result.RowsAffected]

theorem no_match_iff (coerce : String → Option Int) (rows : List Row) (d id : String) :
    (rows.filter (deleteMatches coerce id d)).length = 0 ↔
      ∀ r ∈ rows, ¬ (coerce id = some r.id ∧ r.dir = d) := by
  rw [List.length_eq_zero, List.filter_eq_nil_iff]
  simp [deleteMatches]

theorem filter_no_match (coerce : String → Option Int) (rows : List Row) (d id : String)
    (h : ∀ r ∈ rows, ¬ (coerce id = some r.id ∧ r.dir = d)) :
    rows.filter (fun r => !deleteMatches coerce id d r) = rows := by
  rw [List.filter_eq_self]
  intro r hr
  have := h r hr
  simp only [deleteMatches, Bool.not_eq_true', Bool.and_eq_false_iff, decide_eq_false_iff_not]
  tauto

/-- C3: with the id argument the decimal text of `i`, which the engine reads as `i`,
and the statement running on the notes table: `delete_note d id` returns
`ErrNoRowsDeleted` exactly when no stored note has both id `i` and directory `d`
(so also when id `i` is stored only under another directory), and whenever it
returns `ErrNoRowsDeleted` the store is unchanged, so every listing is as before. -/
theorem delete_note_not_found_iff (coerce : String → Option Int) (t : Table) (d : String)
    (i : Int) (hread : coerce (fmtInt i) = some i) :
    ((delete_note coerce none (some t) d (fmtInt i)).2 = some ErrNoRowsDeleted ↔
        ∀ r ∈ t.rows, ¬ (r.id = i ∧ r.dir = d)) ∧
      ((delete_note coerce none (some t) d (fmtInt i)).2 = some ErrNoRowsDeleted →
        (delete_note coerce none (some t) d (fmtInt i)).1 = some t ∧
          ∀ fault2 d2, get_dir_notes fault2 (delete_note coerce none (some t) d (fmtInt i)).1 d2 =
            get_dir_notes fault2 (some t) d2) := by
  have hiff : (t.rows.filter (deleteMatches coerce (fmtInt i) d)).length = 0 ↔
      ∀ r ∈ t.rows, ¬ (r.id = i ∧ r.dir = d) := by
    rw [no_match_iff, hread]
    constructor
    · intro h r hr hc
      exact h r hr ⟨by rw [hc.1], hc.2⟩
    · intro h r hr hc
      exact h r hr ⟨(Option.some.inj hc.1).symm, hc.2⟩
  rw [delete_note_run]
  by_cases hz : (t.rows.filter (deleteMatches coerce (fmtInt i) d)).length = 0
  · have hkeep := filter_no_match coerce t.rows d (fmtInt i) ((no_match_iff _ _ _ _).mp hz)
    rw [if_pos hz, hkeep]
    exact ⟨⟨fun _ => hiff.mp hz, fun _ => rfl⟩, fun _ => ⟨rfl, fun _ _ => rfl⟩⟩
  · have hsome : (none : Option Err) ≠ some ErrNoRowsDeleted := by simp
    rw [if_neg hz]
    exact ⟨⟨fun h => absurd h hsome, fun h => absurd (hiff.mpr h) hz⟩, fun h => absurd h hsome⟩

/-- C3 on a note stored under another directory than the one supplied. -/
theorem delete_note_not_found_iff_witness :
    decimalValue (fmtInt 1) = some 1 ∧
      (((delete_note decimalValue none (some ⟨[⟨1, "/a", "x"⟩], 1⟩) "/b" (fmtInt 1)).2 =
            some ErrNoRowsDeleted ↔
          ∀ r ∈ [(⟨1, "/a", "x"⟩ : Row)], ¬ (r.id = 1 ∧ r.dir = "/b")) ∧
        ((delete_note decimalValue none (some ⟨[⟨1, "/a", "x"⟩], 1⟩) "/b" (fmtInt 1)).2 =
            some ErrNoRowsDeleted →
          (delete_note decimalValue none (some ⟨[⟨1, "/a", "x"⟩], 1⟩) "/b" (fmtInt 1)).1 =
              some ⟨[⟨1, "/a", "x"⟩], 1⟩ ∧
            ∀ fault2 d2,
              get_dir_notes fault2
                  (delete_note decimalValue none (some ⟨[⟨1, "/a", "x"⟩], 1⟩) "/b" (fmtInt 1)).1 d2 =
                get_dir_notes fault2 (some ⟨[⟨1, "/a", "x"⟩], 1⟩) d2)) :=
  ⟨by decide,
    delete_note_not_found_iff decimalValue ⟨[⟨1, "/a", "x"⟩], 1⟩ "/b" 1 (by decide)⟩

/-- On a table with distinct ids at most one row carries a given id. -/
theorem filter_id_length_le_one (rows : List Row) (i : Int) (p : Row → Bool)
    (hnd : (rows.map Row.id).Nodup) (hp : ∀ r, p r = true → r.id = i) :
    (rows.filter p).length ≤ 1 := by
  induction rows with
  | nil => simp
  | cons a rest ih =>
    simp only [List.map_cons, List.nodup_cons] at hnd
    by_cases ha : p a = true
    · have hnone : rest.filter p = [] := by
        rw [List.filter_eq_nil_iff]
        intro r hr hpr
        apply hnd.1
        rw [hp a ha, ← hp r hpr]
        exact List.mem_map_of_mem _ hr
      simp [List.filter_cons, ha, hnone]
    · simp only [List.filter_cons, ha]
      exact ih hnd.2

/-- C4: when a note with id `i` is stored under `d` (and the statement runs, the id
argument being the decimal text of `i`), `delete_note d i` returns no error;
afterwards `get_dir_notes d` is the previous mapping without key `i`, the mapping
of every other directory is unchanged, with distinct ids exactly one row is gone,
and the dispatcher run in `d` writes exactly the line `Note deleted` to standard
output and exits with 0. -/
theorem delete_note_existing (coerce : String → Option Int) (t : Table) (home d : String)
    (i : Int) (hread : coerce (fmtInt i) = some i)
    (hex : ∃ r ∈ t.rows, r.id = i ∧ r.dir = d) :
    (delete_note coerce none (some t) d (fmtInt i)).2 = none ∧
      (∃ m, get_dir_notes none (some t) d = Except.ok m ∧
        get_dir_notes none (delete_note coerce none (some t) d (fmtInt i)).1 d =
          Except.ok (mapErase m i)) ∧
      (∀ d2, d2 ≠ d → ∀ fault2,
        get_dir_notes fault2 (delete_note coerce none (some t) d (fmtInt i)).1 d2 =
          get_dir_notes fault2 (some t) d2) ∧
      ((t.rows.map Row.id).Nodup →
        (storeRows (delete_note coerce none (some t) d (fmtInt i)).1).length + 1 =
          t.rows.length) ∧
      (main coerce (workingEnv home d) ["delete", fmtInt i] (some t)).stdout =
        ["Note deleted\n"] ∧
      (main coerce (workingEnv home d) ["delete", fmtInt i] (some t)).exit = 0 ∧
      (main coerce (workingEnv home d) ["delete", fmtInt i] (some t)).db =
        (delete_note coerce none (some t) d (fmtInt i)).1 := by
  have hpos : ¬ (t.rows.filter (deleteMatches coerce (fmtInt i) d)).length = 0 := by
    rw [no_match_iff, hread]
    intro h
    obtain ⟨r, hr, hid, hdir⟩ := hex
    exact h r hr ⟨by rw [hid], hdir⟩
  have hrun : delete_note coerce none (some t) d (fmtInt i) =
      (some ⟨t.rows.filter (fun r => !deleteMatches coerce (fmtInt i) d r), t.seq⟩, none) := by
    rw [delete_note_run, if_neg hpos]
  have hmatch : ∀ r : Row, deleteMatches coerce (fmtInt i) d r =
      (decide (r.id = i) && decide (r.dir = d)) := by
    intro r
    simp only [deleteMatches, hread, Option.some.injEq]
    by_cases h : r.id = i
    · simp [h]
    · have h2 : ¬ i = r.id := fun e => h e.symm
      simp [h, h2]
  refine ⟨by rw [hrun], ⟨_, rfl, ?_⟩, ?_, ?_, ?_, ?_, ?_⟩
  · rw [hrun]
    simp only [get_dir_notes, dbQuery]
    have hrows : ((t.rows.filter (fun r => !deleteMatches coerce (fmtInt i) d r)).filter
          (fun r => decide (r.dir = d))).map (fun r => (r.id, r.note)) =
        (((t.rows.filter (fun r => decide (r.dir = d))).map (fun r => (r.id, r.note))).filter
          (fun e => !decide (e.1 = i))) := by
      rw [List.filter_map, List.filter_filter, List.filter_filter]
      congr 1
      apply List.filter_congr
      intro r _
      rw [hmatch]
      by_cases h1 : r.dir = d <;> by_cases h2 : r.id = i <;> simp [h1, h2]
    rw [hrows]
    have h := foldl_mapSet_erase
      ((t.rows.filter (fun r => decide (r.dir = d))).map (fun r => (r.id, r.note))) [] i
    simp only [mapErase, List.filter_nil] at h
    simp only [mapErase]
    rw [h]
  · intro d2 hne fault2
    rw [hrun]
    have hq : dbQuery fault2
        (some ⟨t.rows.filter (fun r => !deleteMatches coerce (fmtInt i) d r), t.seq⟩) d2 =
        dbQuery fault2 (some t) d2 := by
      cases fault2 with
      | some msg => rfl
      | none =>
        simp only [dbQuery, List.filter_filter]
        congr 2
        apply List.filter_congr
        intro r _
        rw [hmatch]
        by_cases h1 : r.dir = d2
        · have h3 : ¬ r.dir = d := fun e => hne (h1.symm.trans e)
          simp [h1, h3, hne]
        · simp [h1]
    simp only [get_dir_notes, hq]
  · intro hnd
    rw [hrun]
    have hle := filter_id_length_le_one t.rows i (deleteMatches coerce (fmtInt i) d) hnd
      (by
        intro r hr
        rw [hmatch] at hr
        simp only [Bool.and_eq_true, decide_eq_true_eq] at hr
        exact hr.1)
    have hsum := List.length_eq_length_filter_add (l := t.rows) (deleteMatches coerce (fmtInt i) d)
    simp only [storeRows]
    omega
  · have hp : Println "Note deleted" = "Note deleted\n" := by decide
    simp [main, workingEnv, create_notes_table, execCreateTable, hrun, errorsIs, hp]
  · simp [main, workingEnv, create_notes_table, execCreateTable, hrun, errorsIs]
  · simp [main, workingEnv, create_notes_table, execCreateTable, hrun, errorsIs]

/-- C4 on a store with notes in two directories. -/
theorem delete_note_existing_witness :
    decimalValue (fmtInt 2) = some 2 ∧
      (∃ r ∈ [(⟨1, "/b", "y"⟩ : Row), ⟨2, "/a", "x"⟩], r.id = 2 ∧ r.dir = "/a") ∧
      (main decimalValue (workingEnv "/home/u" "/a") ["delete", fmtInt 2]
        (some ⟨[⟨1, "/b", "y"⟩, ⟨2, "/a", "x"⟩], 2⟩)).stdout = ["Note deleted\n"] :=
  ⟨by decide, ⟨⟨2, "/a", "x"⟩, by decide, by decide⟩,
    (delete_note_existing decimalValue ⟨[⟨1, "/b", "y"⟩, ⟨2, "/a", "x"⟩], 2⟩ "/home/u" "/a" 2
      (by decide) ⟨⟨2, "/a", "x"⟩, by decide, by decide⟩).2.2.2.2.1⟩

theorem create_notes_table_rows (fault : Option String) (db : Store) :
    storeRows (create_notes_table fault db).1 = storeRows db := by
  cases fault <;> cases db <;> rfl

theorem create_notes_table_run (db : Store) :
    ∃ t, create_notes_table none db = (some t, none) ∧ t.rows = storeRows db := by
  cases db with
  | none => exact ⟨⟨[], 0⟩, rfl, rfl⟩
  | some t => exact ⟨t, rfl, rfl⟩

/-- C5: when no note under the current directory has the id the argument denotes,
`delete <id>` in a working environment writes exactly the line
`No note with id <id>`, with the argument text as given, writes no diagnostic,
exits with status 0 and leaves the notes as they were. -/
theorem delete_missing_reports (coerce : String → Option Int) (home d id : String)
    (db : Store) (hno : ∀ r ∈ storeRows db, ¬ (coerce id = some r.id ∧ r.dir = d)) :
    (main coerce (workingEnv home d) ["delete", id] db).stdout =
        ["No note with id " ++ id ++ "\n"] ∧
      (main coerce (workingEnv home d) ["delete", id] db).diag = none ∧
      (main coerce (workingEnv home d) ["delete", id] db).exit = 0 ∧
      storeRows (main coerce (workingEnv home d) ["delete", id] db).db = storeRows db := by
  obtain ⟨t, hcreate, hrows⟩ := create_notes_table_run db
  rw [← hrows] at hno
  have hz : (t.rows.filter (deleteMatches coerce id d)).length = 0 :=
    (no_match_iff coerce t.rows d id).mpr hno
  have hrun : delete_note coerce none (some t) d id = (some t, some ErrNoRowsDeleted) := by
    rw [delete_note_run, if_pos hz, filter_no_match coerce t.rows d id hno]
  simp [main, workingEnv, hcreate, hrun, errorsIs, storeRows, hrows]

/-- C5 on the scenario `delete 999` with a note 1 in the directory. -/
theorem delete_missing_reports_witness :
    (∀ r ∈ storeRows (some ⟨[⟨1, "/a", "x"⟩], 1⟩),
        ¬ (decimalValue "999" = some r.id ∧ r.dir = "/a")) ∧
      (main decimalValue (workingEnv "/home/u" "/a") ["delete", "999"]
          (some ⟨[⟨1, "/a", "x"⟩], 1⟩)).stdout = ["No note with id 999\n"] ∧
      (main decimalValue (workingEnv "/home/u" "/a") ["delete", "999"]
          (some ⟨[⟨1, "/a", "x"⟩], 1⟩)).exit = 0 :=
  ⟨by decide,
    (delete_missing_reports decimalValue "/home/u" "/a" "999" (some ⟨[⟨1, "/a", "x"⟩], 1⟩)
      (by decide)).1,
    (delete_missing_reports decimalValue "/home/u" "/a" "999" (some ⟨[⟨1, "/a", "x"⟩], 1⟩)
      (by decide)).2.2.1⟩

/-- C6 as stated fails: run with the arguments `add` alone on a fresh database file
in a working environment, the program ends with status 1 and `Missing note`, but
by then it has opened the database and executed the schema statement, and the
file that had no table now has one. -/
theorem usage_error_counterexample :
    (main decimalValue (workingEnv "/home/u" "/a") ["add"] none).exit = 1 ∧
      (main decimalValue (workingEnv "/home/u" "/a") ["add"] none).diag = some "Missing note" ∧
      (main decimalValue (workingEnv "/home/u" "/a") ["add"] none).trace =
        [StorageOp.sqlOpen, StorageOp.createTable] ∧
      (main decimalValue (workingEnv "/home/u" "/a") ["add"] none).db = some ⟨[], 0⟩ ∧
      (main decimalValue (workingEnv "/home/u" "/a") ["add"] none).db ≠ none := by
  decide

/-- C6 (amended): on the argument list `add` alone, and likewise on `delete` alone,
the program ends with a diagnostic and exit status 1, writes nothing to standard
output, and has executed no insert, delete or select statement: the only calls
that reached the database are the open and the schema creation, and the stored
notes are the same as before.  In a working environment both of these calls have
been made and the diagnostic is `Missing note`, respectively `Missing note id`. -/
theorem usage_error_before_statements (coerce : String → Option Int) (env : Env) (db : Store) :
    ((main coerce env ["add"] db).exit = 1 ∧
        (main coerce env ["add"] db).diag.isSome = true ∧
        (main coerce env ["add"] db).stdout = [] ∧
        (∀ op ∈ (main coerce env ["add"] db).trace,
          op = StorageOp.sqlOpen ∨ op = StorageOp.createTable) ∧
        storeRows (main coerce env ["add"] db).db = storeRows db) ∧
      ((main coerce env ["delete"] db).exit = 1 ∧
        (main coerce env ["delete"] db).diag.isSome = true ∧
        (main coerce env ["delete"] db).stdout = [] ∧
        (∀ op ∈ (main coerce env ["delete"] db).trace,
          op = StorageOp.sqlOpen ∨ op = StorageOp.createTable) ∧
        storeRows (main coerce env ["delete"] db).db = storeRows db) ∧
      (∀ home d,
        (main coerce (workingEnv home d) ["add"] db).diag = some "Missing note" ∧
        (main coerce (workingEnv home d) ["delete"] db).diag = some "Missing note id" ∧
        (main coerce (workingEnv home d) ["add"] db).trace =
          [StorageOp.sqlOpen, StorageOp.createTable] ∧
        (main coerce (workingEnv home d) ["delete"] db).trace =
          [StorageOp.sqlOpen, StorageOp.createTable]) := by
  obtain ⟨home, openErr, createFault, cwd, stmtFault⟩ := env
  refine ⟨?_, ?_, ?_⟩
  · cases home <;> cases openErr <;> cases createFault <;> cases cwd <;> cases db <;>
      simp [main, fatalf, create_notes_table, execCreateTable, storeRows]
  · cases home <;> cases openErr <;> cases createFault <;> cases cwd <;> cases db <;>
      simp [main, fatalf, create_notes_table, execCreateTable, storeRows]
  · intro h d
    cases db <;> simp [main, workingEnv, fatalf, create_notes_table, execCreateTable]

/-! ## Lemmas on runs of the program -/

theorem add_note_rows (fault : Option String) (db : Store) (dir note : String) :
    ∀ r ∈ storeRows (add_note fault db dir note).1, r ∈ storeRows db ∨ r.note = note := by
  intro r hr
  cases fault with
  | some msg => left; simpa [add_note, execInsert] using hr
  | none =>
    cases db with
    | none => left; simpa [add_note, execInsert] using hr
    | some t =>
      cases hn : newRowid t with
      | none => left; simpa [add_note, execInsert, hn] using hr
      | some n =>
        simp only [add_note, execInsert, hn, storeRows, List.mem_append,
          List.mem_singleton] at hr
        rcases hr with h | h
        · left; exact h
        · right; rw [h]

theorem delete_note_rows (coerce : String → Option Int) (fault : Option String) (db : Store)
    (dir id : String) :
    ∀ r ∈ storeRows (delete_note coerce fault db dir id).1, r ∈ storeRows db := by
  intro r hr
  cases fault with
  | some msg => simpa [delete_note, execDelete] using hr
  | none =>
    cases db with
    | none => simpa [delete_note, execDelete] using hr
    | some t =>
      rw [delete_note_run] at hr
      split at hr <;> exact (List.mem_filter.mp hr).1

theorem intercalate_go_length (s : String) (l : List String) (acc : String) :
    acc.length ≤ (String.intercalate.go acc s l).length := by
  induction l generalizing acc with
  | nil => simp [String.intercalate.go]
  | cons a rest ih =>
    simp only [String.intercalate.go]
    have h := ih (acc ++ s ++ a)
    simp only [String.length_append] at h
    omega

/-- Joining with single spaces gives the empty text only from no words or from the
one empty word. -/
theorem intercalate_eq_empty (rest : List String) (h : String.intercalate " " rest = "") :
    rest = [] ∨ rest = [""] := by
  match rest with
  | [] => left; rfl
  | [a] =>
    right
    simp only [String.intercalate, String.intercalate.go] at h
    rw [h]
  | a :: b :: tl =>
    exfalso
    simp only [String.intercalate, String.intercalate.go] at h
    have hlen := intercalate_go_length " " tl (a ++ " " ++ b)
    rw [h] at hlen
    simp only [String.length_append] at hlen
    have h1 : (" " : String).length = 1 := rfl
    have h0 : ("" : String).length = 0 := rfl
    omega

/-- A run of the program leaves the rows that were stored, without some of them, or
with one more whose text is the joined words of an `add`. -/
theorem main_rows (coerce : String → Option Int) (env : Env) (args : List String) (db : Store) :
    ∀ r ∈ storeRows (main coerce env args db).db,
      r ∈ storeRows db ∨
        ∃ rest, args = "add" :: rest ∧ rest ≠ [] ∧ r.note = String.intercalate " " rest := by
  intro r hr
  have hc := create_notes_table_rows env.createFault db
  unfold main at hr
  split at hr
  · left; exact hr
  · split at hr
    · left; exact hr
    · split at hr
      · rename_i db1 err heq
        rw [heq] at hc
        left; rw [← hc]; exact hr
      · rename_i db1 heq
        rw [heq] at hc
        simp only at hc
        split at hr
        · left; rw [← hc]; exact hr
        · split at hr
          · left; rw [← hc]; exact hr
          · rename_i dir _ _ cmd rest
            split at hr
            · rename_i hcmd
              split at hr
              · left; rw [← hc]; exact hr
              · rename_i hlen
                have hne : rest ≠ [] := by
                  intro h
                  rw [h] at hlen
                  simp at hlen
                have hadd := add_note_rows env.stmtFault db1 dir (String.intercalate " " rest) r
                dsimp only at hr
                split at hr
                · rename_i db2 err heq2
                  rw [heq2] at hadd
                  rcases hadd hr with h | h
                  · left; rw [← hc]; exact h
                  · right; exact ⟨rest, by rw [hcmd], hne, h⟩
                · rename_i db2 heq2
                  rw [heq2] at hadd
                  rcases hadd hr with h | h
                  · left; rw [← hc]; exact h
                  · right; exact ⟨rest, by rw [hcmd], hne, h⟩
            · split at hr
              · split at hr
                · left; rw [← hc]; exact hr
                · rename_i id tl
                  have hdel := delete_note_rows coerce env.stmtFault db1 dir id r
                  left; rw [← hc]
                  apply hdel
                  split at hr
                  rename_i db2 err heq2
                  rw [heq2]
                  split at hr
                  · exact hr
                  · split at hr <;> exact hr
              · left; rw [← hc]; exact hr

/-- C7 as stated fails: `add ""` passes the argument-count check, and the note
inserted has the empty string as its text. -/
theorem add_empty_text_counterexample :
    (main decimalValue (workingEnv "/home/u" "/a") ["add", ""] none).stdout =
        ["Note added\n"] ∧
      (main decimalValue (workingEnv "/home/u" "/a") ["add", ""] none).db =
        some ⟨[⟨1, "/a", ""⟩], 1⟩ ∧
      ∃ r ∈ storeRows (main decimalValue (workingEnv "/home/u" "/a") ["add", ""] none).db,
        r.note = "" := by
  refine ⟨by decide, by decide, ⟨1, "/a", ""⟩, by decide, rfl⟩

/-- What a run of `add` does to the stored rows: nothing, or exactly one row more at
the end, under an id no stored row has, for the working directory, with the words
joined by single spaces as its text. -/
theorem main_add_rows (coerce : String → Option Int) (env : Env) (rest : List String)
    (db : Store) :
    storeRows (main coerce env ("add" :: rest) db).db = storeRows db ∨
      ∃ n d, env.cwd = Except.ok d ∧ rest ≠ [] ∧ (∀ r ∈ storeRows db, r.id ≠ n) ∧
        storeRows (main coerce env ("add" :: rest) db).db =
          storeRows db ++ [⟨n, d, String.intercalate " " rest⟩] := by
  obtain ⟨home, openErr, createFault, cwd, stmtFault⟩ := env
  cases home with
  | error e => left; simp [main, fatalf]
  | ok h =>
    cases openErr with
    | some e => left; simp [main, fatalf]
    | none =>
      cases createFault with
      | some e => left; simp [main, fatalf, create_notes_table, execCreateTable]
      | none =>
        obtain ⟨t, hcreate, hrows⟩ := create_notes_table_run db
        cases cwd with
        | error e => left; simp [main, fatalf, hcreate, storeRows, hrows]
        | ok d =>
          cases rest with
          | nil => left; simp [main, fatalf, hcreate, storeRows, hrows]
          | cons w ws =>
            cases stmtFault with
            | some msg =>
              left
              simp [main, fatalf, hcreate, add_note, execInsert, storeRows, hrows]
            | none =>
              cases hn : newRowid t with
              | none =>
                left
                simp [main, fatalf, hcreate, add_note, execInsert, hn, storeRows, hrows]
              | some n =>
                right
                refine ⟨n, d, rfl, by simp, ?_, ?_⟩
                · intro r hr
                  rw [← hrows] at hr
                  exact ne_of_lt ((newRowid_gt t n hn).2 r hr)
                · simp [main, hcreate, add_note, execInsert, hn, storeRows, hrows]

/-- C7 (amended): for every argument list beginning with `add` other than `add ""`
exactly, in every environment and on every store, the run either leaves the
stored rows as they were or appends exactly one row, under an id no stored row
has, whose text is the arguments after `add` joined with single spaces, and that
text is not the empty string.  Hence over any sequence of runs none of which is
`add ""`, a store whose notes all have non-empty text stays such a store, so
every store reached from the fresh database file holds only non-empty notes. -/
theorem stored_text_nonempty (coerce : String → Option Int) :
    (∀ (env : Env) (rest : List String) (db : Store), rest ≠ [""] →
      (storeRows (main coerce env ("add" :: rest) db).db = storeRows db ∨
        ∃ n d, env.cwd = Except.ok d ∧ (∀ r ∈ storeRows db, r.id ≠ n) ∧
          storeRows (main coerce env ("add" :: rest) db).db =
            storeRows db ++ [⟨n, d, String.intercalate " " rest⟩] ∧
          String.intercalate " " rest ≠ "")) ∧
      (∀ (runs : List (Env × List String)), (∀ p ∈ runs, p.2 ≠ ["add", ""]) →
        ∀ (db : Store), (∀ r ∈ storeRows db, r.note ≠ "") →
          ∀ r ∈ storeRows (runAll coerce runs db), r.note ≠ "") := by
  constructor
  · intro env rest db hrest
    rcases main_add_rows coerce env rest db with h | ⟨n, d, hcwd, hne, hfresh, hrows⟩
    · left; exact h
    · right
      refine ⟨n, d, hcwd, hfresh, hrows, ?_⟩
      intro hempty
      rcases intercalate_eq_empty rest hempty with h | h
      · exact hne h
      · exact hrest h
  · intro runs
    induction runs with
    | nil =>
      intro _ db hdb
      simpa [runAll] using hdb
    | cons p tl ih =>
      intro hruns db hdb
      obtain ⟨env, args⟩ := p
      simp only [runAll]
      apply ih (fun q hq => hruns q (List.mem_cons_of_mem _ hq))
      intro r hr
      rcases main_rows coerce env args db r hr with h | ⟨ws, hargs, hne, hnote⟩
      · exact hdb r h
      · intro hempty
        rw [hnote] at hempty
        rcases intercalate_eq_empty ws hempty with h | h
        · exact hne h
        · apply hruns (env, args) (List.mem_cons_self _ _)
          simp only [hargs, h]

/-- C7 (amended) on `add buy milk` run on a store that already holds a note with
empty text, and on the runs `add buy milk`, `add "" ""` from the fresh file. -/
theorem stored_text_nonempty_witness :
    (["buy", "milk"] : List String) ≠ [""] ∧
      (main decimalValue (workingEnv "/home/u" "/a") ["add", "buy", "milk"]
          (some ⟨[⟨1, "/a", ""⟩], 1⟩)).db =
        some ⟨[⟨1, "/a", ""⟩, ⟨2, "/a", "buy milk"⟩], 2⟩ ∧
      (storeRows (main decimalValue (workingEnv "/home/u" "/a") ("add" :: ["buy", "milk"])
            (some ⟨[⟨1, "/a", ""⟩], 1⟩)).db = storeRows (some ⟨[⟨1, "/a", ""⟩], 1⟩) ∨
        ∃ n d, (workingEnv "/home/u" "/a").cwd = Except.ok d ∧
          (∀ r ∈ storeRows (some ⟨[⟨1, "/a", ""⟩], 1⟩), r.id ≠ n) ∧
          storeRows (main decimalValue (workingEnv "/home/u" "/a") ("add" :: ["buy", "milk"])
              (some ⟨[⟨1, "/a", ""⟩], 1⟩)).db =
            storeRows (some ⟨[⟨1, "/a", ""⟩], 1⟩) ++
              [⟨n, d, String.intercalate " " ["buy", "milk"]⟩] ∧
          String.intercalate " " ["buy", "milk"] ≠ "") ∧
      (∀ p ∈ [(workingEnv "/home/u" "/a", ["add", "buy", "milk"]),
        (workingEnv "/home/u" "/a", ["add", "", ""])], p.2 ≠ ["add", ""]) ∧
      (∀ r ∈ storeRows none, r.note ≠ "") ∧
      ∀ r ∈ storeRows (runAll decimalValue
          [(workingEnv "/home/u" "/a", ["add", "buy", "milk"]),
            (workingEnv "/home/u" "/a", ["add", "", ""])] none), r.note ≠ "" :=
  ⟨by decide, by decide,
    (stored_text_nonempty decimalValue).1 (workingEnv "/home/u" "/a") ["buy", "milk"]
      (some ⟨[⟨1, "/a", ""⟩], 1⟩) (by decide),
    by decide, by decide,
    (stored_text_nonempty decimalValue).2
      [(workingEnv "/home/u" "/a", ["add", "buy", "milk"]),
        (workingEnv "/home/u" "/a", ["add", "", ""])] (by decide) none (by decide)⟩

/-! ## Lemmas on id assignment -/

theorem newIds_self (db : Store) : newIds db db = [] := by
  simp only [newIds, List.map_eq_nil_iff, List.filter_eq_nil_iff]
  intro r hr
  simp only [Bool.not_eq_true', Bool.not_eq_false, List.any_eq_true, decide_eq_true_eq]
  exact ⟨r, hr, rfl⟩

theorem newIds_insert (t : Table) (n : Int) (dir note : String) (seq : Int)
    (hlt : ∀ r ∈ t.rows, r.id < n) :
    newIds (some t) (some ⟨t.rows ++ [⟨n, dir, note⟩], seq⟩) = [n] := by
  have hold : t.rows.filter
      (fun r => !t.rows.any (fun q => decide (q.id = r.id))) = [] := by
    rw [List.filter_eq_nil_iff]
    intro r hr
    simp only [Bool.not_eq_true', Bool.not_eq_false, List.any_eq_true, decide_eq_true_eq]
    exact ⟨r, hr, rfl⟩
  have hnew : (t.rows.any (fun q => decide (q.id = n))) = false := by
    rw [List.any_eq_false]
    intro q hq
    have := hlt q hq
    simp only [decide_eq_true_eq]
    omega
  simp [newIds, storeRows, List.filter_append, hold, List.filter_cons, hnew]

/-- What holds of every history reached from the empty store: the table exists, its
ids are distinct and were all assigned, no stored or assigned id exceeds the
sequence value, and the assigned ids increase strictly. -/
theorem step_invariant (coerce : String → Option Int) (h : History) (c : Call)
    (hinv : ∃ t, h.db = some t ∧ (t.rows.map Row.id).Nodup ∧
      (∀ r ∈ t.rows, r.id ≤ t.seq) ∧ (∀ a ∈ h.assigned, a ≤ t.seq) ∧
      h.assigned.Pairwise (fun a b => a < b) ∧ ∀ r ∈ t.rows, r.id ∈ h.assigned) :
    ∃ t, (step coerce h c).db = some t ∧ (t.rows.map Row.id).Nodup ∧
      (∀ r ∈ t.rows, r.id ≤ t.seq) ∧ (∀ a ∈ (step coerce h c).assigned, a ≤ t.seq) ∧
      (step coerce h c).assigned.Pairwise (fun a b => a < b) ∧
      ∀ r ∈ t.rows, r.id ∈ (step coerce h c).assigned := by
  obtain ⟨t, hdb, hnd, hrows, hass, hpw, hmem⟩ := hinv
  cases c with
  | add fault dir note =>
    have hkeep : ∀ db', db' = h.db → ∃ t, db' = some t ∧ (t.rows.map Row.id).Nodup ∧
        (∀ r ∈ t.rows, r.id ≤ t.seq) ∧ (∀ a ∈ h.assigned ++ newIds h.db db', a ≤ t.seq) ∧
        (h.assigned ++ newIds h.db db').Pairwise (fun a b => a < b) ∧
        ∀ r ∈ t.rows, r.id ∈ h.assigned ++ newIds h.db db' := by
      intro db' he
      subst he
      rw [newIds_self, List.append_nil]
      exact ⟨t, hdb, hnd, hrows, hass, hpw, hmem⟩
    simp only [step]
    cases fault with
    | some msg => exact hkeep _ (by simp [add_note, execInsert])
    | none =>
      cases hn : newRowid t with
      | none => exact hkeep _ (by simp [add_note, execInsert, hdb, hn])
      | some n =>
        obtain ⟨hseq, hlt⟩ := newRowid_gt t n hn
        have hrun : (add_note none h.db dir note).1 =
            some ⟨t.rows ++ [⟨n, dir, note⟩], n⟩ := by
          simp [add_note, execInsert, hdb, hn]
        rw [hrun, hdb, newIds_insert t n dir note n hlt]
        refine ⟨_, rfl, ?_, ?_, ?_, ?_, ?_⟩
        · simp only [List.map_append, List.map_cons, List.map_nil]
          rw [List.nodup_append]
          refine ⟨hnd, List.nodup_singleton _, ?_⟩
          intro a ha hb
          simp only [List.mem_singleton] at hb
          obtain ⟨r, hr, hra⟩ := List.mem_map.mp ha
          have := hlt r hr
          omega
        · intro r hr
          rcases List.mem_append.mp hr with h1 | h1
          · exact le_of_lt (hlt r h1)
          · simp only [List.mem_singleton] at h1
            rw [h1]
        · intro a ha
          rcases List.mem_append.mp ha with h1 | h1
          · have := hass a h1
            show a ≤ n
            omega
          · simp only [List.mem_singleton] at h1
            rw [h1]
        · rw [List.pairwise_append]
          refine ⟨hpw, List.pairwise_singleton _ _, ?_⟩
          intro a ha b hb
          simp only [List.mem_singleton] at hb
          have := hass a ha
          omega
        · intro r hr
          rcases List.mem_append.mp hr with h1 | h1
          · exact List.mem_append_left _ (hmem r h1)
          · simp only [List.mem_singleton] at h1
            rw [h1]
            exact List.mem_append_right _ (List.mem_singleton_self _)
  | delete fault dir id =>
    simp only [step]
    cases fault with
    | some msg =>
      exact ⟨t, by simp [delete_note, execDelete, hdb], hnd, hrows, hass, hpw, hmem⟩
    | none =>
      rw [hdb, delete_note_run]
      have hsub : ∀ r ∈ t.rows.filter (fun r => !deleteMatches coerce id dir r), r ∈ t.rows :=
        fun r hr => (List.mem_filter.mp hr).1
      have hnd2 : ((t.rows.filter (fun r => !deleteMatches coerce id dir r)).map Row.id).Nodup :=
        List.Nodup.sublist (List.Sublist.map _ (List.filter_sublist _)) hnd
      split
      · exact ⟨_, rfl, hnd2, fun r hr => hrows r (hsub r hr), hass, hpw,
          fun r hr => hmem r (hsub r hr)⟩
      · exact ⟨_, rfl, hnd2, fun r hr => hrows r (hsub r hr), hass, hpw,
          fun r hr => hmem r (hsub r hr)⟩

theorem foldl_step_invariant (coerce : String → Option Int) (calls : List Call) (h : History)
    (hinv : ∃ t, h.db = some t ∧ (t.rows.map Row.id).Nodup ∧
      (∀ r ∈ t.rows, r.id ≤ t.seq) ∧ (∀ a ∈ h.assigned, a ≤ t.seq) ∧
      h.assigned.Pairwise (fun a b => a < b) ∧ ∀ r ∈ t.rows, r.id ∈ h.assigned) :
    ∃ t, (calls.foldl (step coerce) h).db = some t ∧ (t.rows.map Row.id).Nodup ∧
      (∀ r ∈ t.rows, r.id ≤ t.seq) ∧ (∀ a ∈ (calls.foldl (step coerce) h).assigned, a ≤ t.seq) ∧
      (calls.foldl (step coerce) h).assigned.Pairwise (fun a b => a < b) ∧
      ∀ r ∈ t.rows, r.id ∈ (calls.foldl (step coerce) h).assigned := by
  induction calls generalizing h with
  | nil => simpa using hinv
  | cons c rest ih =>
    simp only [List.foldl_cons]
    exact ih _ (step_invariant coerce h c hinv)

/-- C8: after any sequence of `add_note` and `delete_note` calls from the empty
store, whatever the driver reports for each, no two stored notes share an id
(directories play no part), every stored id was assigned by an add, and the ids
assigned by the adds, in the order of the calls, increase strictly: each is
greater than every id assigned earlier, so none is used twice. -/
theorem ids_unique_increasing (coerce : String → Option Int) (calls : List Call) :
    ((storeRows (runCalls coerce calls).db).map Row.id).Nodup ∧
      (runCalls coerce calls).assigned.Pairwise (fun a b => a < b) ∧
      ∀ r ∈ storeRows (runCalls coerce calls).db, r.id ∈ (runCalls coerce calls).assigned := by
  obtain ⟨t, hdb, hnd, _, _, hpw, hmem⟩ :=
    foldl_step_invariant coerce calls ⟨emptyStore, []⟩
      ⟨⟨[], 0⟩, rfl, by simp, by simp, by simp, by simp, by simp⟩
  unfold runCalls
  rw [hdb]
  exact ⟨hnd, hpw, hmem⟩

/-! ## Lemmas on listing -/

theorem list_notes_run (db : Store) (d : String) (m : NoteMap)
    (h : get_dir_notes none db d = Except.ok m) :
    list_notes none db d =
      if m.length = 0 then ⟨[Println "No notes in this directory"], none⟩
      else ⟨m.map (fun e => noteLine e.1 e.2), none⟩ := by
  simp only [list_notes, h]

theorem main_list (coerce : String → Option Int) (home d : String) (db : Store) :
    ∃ t, t.rows = storeRows db ∧
      main coerce (workingEnv home d) [] db =
        ⟨(list_notes none (some t) d).stdout, (list_notes none (some t) d).fatal,
          if (list_notes none (some t) d).fatal.isSome then 1 else 0, some t,
          [StorageOp.sqlOpen, StorageOp.createTable, StorageOp.select]⟩ := by
  obtain ⟨t, hcreate, hrows⟩ := create_notes_table_run db
  exact ⟨t, hrows, by simp [main, workingEnv, hcreate]⟩

/-- With distinct ids the map returned for `d` holds the rows of `d` one for one. -/
theorem get_dir_notes_nodup (t : Table) (d : String) (hnd : (t.rows.map Row.id).Nodup) :
    get_dir_notes none (some t) d =
      Except.ok ((t.rows.filter (fun r => decide (r.dir = d))).map (fun r => (r.id, r.note))) := by
  have hsub : (((t.rows.filter (fun r => decide (r.dir = d))).map
      (fun r => (r.id, r.note))).map Prod.fst).Nodup := by
    rw [List.map_map]
    exact List.Nodup.sublist (List.Sublist.map _ (List.filter_sublist _)) hnd
  have h := foldl_mapSet_nodup _ [] hsub (by simp)
  simp only [get_dir_notes, dbQuery, h, List.nil_append]

/-- C9: in a working environment with room for one more id, `add w1 ... wn` (n at
least 1) writes exactly the line `Note added` to standard output, exits with 0 and
leaves the stored rows with exactly one more, a note under the current directory
whose text is the words joined with single spaces; a following run without
arguments in that directory prints, among its lines, the decimal text of the new
id `n`, then `: `, then the joined text, then a newline. -/
theorem add_then_list (coerce : String → Option Int) (home home2 d w : String)
    (ws : List String) (db : Store) (hroom : hasRoom db = true) :
    (main coerce (workingEnv home d) ("add" :: w :: ws) db).stdout = ["Note added\n"] ∧
      (main coerce (workingEnv home d) ("add" :: w :: ws) db).exit = 0 ∧
      ∃ n, storeRows (main coerce (workingEnv home d) ("add" :: w :: ws) db).db =
          storeRows db ++ [⟨n, d, String.intercalate " " (w :: ws)⟩] ∧
        (∀ r ∈ storeRows db, r.id ≠ n) ∧
        toString n ++ ": " ++ String.intercalate " " (w :: ws) ++ "\n" ∈
          (main coerce (workingEnv home2 d) []
            (main coerce (workingEnv home d) ("add" :: w :: ws) db).db).stdout ∧
        (main coerce (workingEnv home2 d) []
            (main coerce (workingEnv home d) ("add" :: w :: ws) db).db).exit = 0 := by
  obtain ⟨t, hcreate, hrows⟩ := create_notes_table_run db
  have hsome : (newRowid t).isSome = true := by
    cases db with
    | none =>
      simp only [create_notes_table, execCreateTable, Prod.mk.injEq, Option.some.injEq,
        and_true] at hcreate
      rw [← hcreate]
      decide
    | some t0 =>
      simp only [create_notes_table, execCreateTable, Prod.mk.injEq, Option.some.injEq,
        and_true] at hcreate
      rw [← hcreate]
      exact hroom
  obtain ⟨n, hn⟩ := Option.isSome_iff_exists.mp hsome
  have hadd : add_note none (some t) d (String.intercalate " " (w :: ws)) =
      (some ⟨t.rows ++ [⟨n, d, String.intercalate " " (w :: ws)⟩], n⟩, none) := by
    simp [add_note, execInsert, hn]
  have hmain : main coerce (workingEnv home d) ("add" :: w :: ws) db =
      ⟨[Println "Note added"], none, 0,
        some ⟨t.rows ++ [⟨n, d, String.intercalate " " (w :: ws)⟩], n⟩,
        [StorageOp.sqlOpen, StorageOp.createTable, StorageOp.insert]⟩ := by
    simp [main, workingEnv, hcreate, hadd]
  rw [hmain]
  have hp : [Println "Note added"] = ["Note added\n"] := by decide
  refine ⟨hp, rfl, n, by simp [storeRows, hrows], ?_, ?_⟩
  · intro r hr
    rw [← hrows] at hr
    exact ne_of_lt ((newRowid_gt t n hn).2 r hr)
  · obtain ⟨m, _, _, hm'⟩ :=
      get_dir_notes_insert t n n d (String.intercalate " " (w :: ws)) hn
    obtain ⟨t2, ht2, hlist⟩ := main_list coerce home2 d
      (some ⟨t.rows ++ [⟨n, d, String.intercalate " " (w :: ws)⟩], n⟩)
    have ht2eq : t2 = ⟨t.rows ++ [⟨n, d, String.intercalate " " (w :: ws)⟩], n⟩ := by
      have hc := create_notes_table_run
        (some ⟨t.rows ++ [⟨n, d, String.intercalate " " (w :: ws)⟩], n⟩)
      simp only [main, workingEnv, create_notes_table, execCreateTable] at hlist
      simp only [Outcome.mk.injEq, Option.some.injEq] at hlist
      exact hlist.2.2.2.1.symm
    dsimp only
    rw [hlist, ht2eq, list_notes_run _ d _ hm']
    have hlen : ¬ (m ++ [(n, String.intercalate " " (w :: ws))]).length = 0 := by simp
    rw [if_neg hlen]
    refine ⟨?_, rfl⟩
    show noteLine n (String.intercalate " " (w :: ws)) ∈ _
    simp

/-- C9 on the scenario `add buy milk` in a fresh database file. -/
theorem add_then_list_witness :
    hasRoom none = true ∧
      (main decimalValue (workingEnv "/home/u" "/a") ["add", "buy", "milk"] none).stdout =
        ["Note added\n"] ∧
      (main decimalValue (workingEnv "/home/u" "/a") ["add", "buy", "milk"] none).db =
        some ⟨[⟨1, "/a", "buy milk"⟩], 1⟩ ∧
      (main decimalValue (workingEnv "/home/u" "/a") []
        (main decimalValue (workingEnv "/home/u" "/a") ["add", "buy", "milk"] none).db).stdout =
        ["1: buy milk\n"] ∧
      ∃ n, storeRows (main decimalValue (workingEnv "/home/u" "/a")
            ("add" :: "buy" :: ["milk"]) none).db =
          storeRows none ++ [⟨n, "/a", String.intercalate " " ("buy" :: ["milk"])⟩] ∧
        (∀ r ∈ storeRows none, r.id ≠ n) ∧
        toString n ++ ": " ++ String.intercalate " " ("buy" :: ["milk"]) ++ "\n" ∈
          (main decimalValue (workingEnv "/home/u" "/a") []
            (main decimalValue (workingEnv "/home/u" "/a")
              ("add" :: "buy" :: ["milk"]) none).db).stdout ∧
        (main decimalValue (workingEnv "/home/u" "/a") []
            (main decimalValue (workingEnv "/home/u" "/a")
              ("add" :: "buy" :: ["milk"]) none).db).exit = 0 :=
  ⟨by decide,
    (add_then_list decimalValue "/home/u" "/home/u" "/a" "buy" ["milk"] none (by decide)).1,
    by decide, by decide,
    (add_then_list decimalValue "/home/u" "/home/u" "/a" "buy" ["milk"] none (by decide)).2.2⟩

/-- C10: on a store with distinct ids and a working environment, the program run
without arguments in `d` (that is `list_notes d`) prints exactly the one line
`No notes in this directory` when no note is stored under `d`, so for every
directory when nothing is stored; otherwise its output is, up to order, exactly
one line `<id>: <text>` for each note stored under `d`, and nothing else.  Either
way it writes no diagnostic and exits with 0. -/
theorem list_output (coerce : String → Option Int) (home d : String) (db : Store)
    (hnd : ((storeRows db).map Row.id).Nodup) :
    ((∀ r ∈ storeRows db, r.dir ≠ d) →
        (main coerce (workingEnv home d) [] db).stdout = [Println "No notes in this directory"]) ∧
      ((∃ r ∈ storeRows db, r.dir = d) →
        ((main coerce (workingEnv home d) [] db).stdout).Perm
          (((storeRows db).filter (fun r => decide (r.dir = d))).map
            (fun r => noteLine r.id r.note))) ∧
      (main coerce (workingEnv home d) [] db).diag = none ∧
      (main coerce (workingEnv home d) [] db).exit = 0 ∧
      (∀ t, db = some t →
        (main coerce (workingEnv home d) [] db).stdout = (list_notes none (some t) d).stdout) := by
  obtain ⟨t, hrows, hmain⟩ := main_list coerce home d db
  rw [hmain, ← hrows]
  rw [← hrows] at hnd
  have hget := get_dir_notes_nodup t d hnd
  have hlist := list_notes_run (some t) d _ hget
  have hlistdb : ∀ t2, db = some t2 → list_notes none (some t) d = list_notes none (some t2) d := by
    intro t2 h2
    have hg2 : get_dir_notes none (some t2) d = get_dir_notes none (some t) d := by
      subst h2
      simp only [get_dir_notes, dbQuery, storeRows] at hrows ⊢
      rw [hrows]
    simp only [list_notes, hg2]
  by_cases hz : ((t.rows.filter (fun r => decide (r.dir = d))).map
      (fun r => (r.id, r.note))).length = 0
  · rw [if_pos hz] at hlist
    have hnone : ∀ r ∈ t.rows, r.dir ≠ d := by
      rw [List.length_map, List.length_eq_zero, List.filter_eq_nil_iff] at hz
      intro r hr
      simpa using hz r hr
    refine ⟨fun _ => by rw [hlist], ?_, by rw [hlist], by rw [hlist]; rfl, ?_⟩
    · rintro ⟨r, hr, hd⟩
      exact absurd hd (hnone r hr)
    · intro t2 h2
      rw [hlistdb t2 h2]
  · rw [if_neg hz] at hlist
    refine ⟨?_, fun _ => ?_, by rw [hlist], by rw [hlist]; rfl, ?_⟩
    · intro hnone
      exfalso
      apply hz
      rw [List.length_map, List.length_eq_zero, List.filter_eq_nil_iff]
      intro r hr
      simpa using hnone r hr
    · rw [hlist]
      simp only [List.map_map]
      exact List.Perm.refl _
    · intro t2 h2
      rw [hlistdb t2 h2]

/-- C10 on a store with notes in two directories, and on the fresh file. -/
theorem list_output_witness :
    ((storeRows (some ⟨[⟨1, "/b", "y"⟩, ⟨2, "/a", "x"⟩, ⟨3, "/a", "z"⟩], 3⟩)).map Row.id).Nodup ∧
      (main decimalValue (workingEnv "/home/u" "/a") []
          (some ⟨[⟨1, "/b", "y"⟩, ⟨2, "/a", "x"⟩, ⟨3, "/a", "z"⟩], 3⟩)).stdout =
        ["2: x\n", "3: z\n"] ∧
      (main decimalValue (workingEnv "/home/u" "/c") []
          (some ⟨[⟨1, "/b", "y"⟩, ⟨2, "/a", "x"⟩, ⟨3, "/a", "z"⟩], 3⟩)).stdout =
        ["No notes in this directory\n"] ∧
      ((main decimalValue (workingEnv "/home/u" "/a") []
          (some ⟨[⟨1, "/b", "y"⟩, ⟨2, "/a", "x"⟩, ⟨3, "/a", "z"⟩], 3⟩)).stdout).Perm
        (((storeRows (some ⟨[⟨1, "/b", "y"⟩, ⟨2, "/a", "x"⟩, ⟨3, "/a", "z"⟩], 3⟩)).filter
          (fun r => decide (r.dir = "/a"))).map (fun r => noteLine r.id r.note)) :=
  ⟨by decide, by decide, by decide,
    (list_output decimalValue "/home/u" "/a"
      (some ⟨[⟨1, "/b", "y"⟩, ⟨2, "/a", "x"⟩, ⟨3, "/a", "z"⟩], 3⟩) (by decide)).2.1
      ⟨⟨2, "/a", "x"⟩, by decide, by decide⟩⟩

end CliNotes
